import Mathlib

/-!
Shallow embedding of the command-parsing and message-moderation core of
`server/chat.ts` (Pokemon Showdown chat server), together with proofs of the
specification's testable properties.

Conventions:
* A JS string is modelled as `Str := List Char` (a sequence of UTF-16 units;
  every character appearing in these claims lies in the BMP, where one unit is
  one code point).
* JS `null`/`undefined` results are modelled with `Option`.
* Collaborator state owned by other modules (user auth, room settings, the
  crash reporter) is passed in explicitly as record fields or function
  parameters; each such field carries a comment citing the source lines it
  stands for.
-/

abbrev Str : Type := List Char

/-- Characters matched by the JS regex class `\\s`: ASCII whitespace plus the
Unicode space separators, listed here by code point. -/
def isJsSpace (c : Char) : Bool :=
  c = ' ' ∨ c = '\t' ∨ c = '\n' ∨ c = '\r' ∨ c = '\u000b' ∨ c = '\u000c' ∨
  c = '\u00a0' ∨ c = '\u1680' ∨ ('\u2000' ≤ c ∧ c ≤ '\u200a') ∨
  c = '\u2028' ∨ c = '\u2029' ∨ c = '\u202f' ∨ c = '\u205f' ∨
  c = '\u3000' ∨ c = '\ufeff' 

/-- ASCII lowercase letter, as in the JS regex class `[a-z]`. -/
def isLowerAlpha (c : Char) : Bool := 'a' ≤ c ∧ c ≤ 'z'

/-- ASCII digit, as in the JS regex class `[0-9]`. -/
def isDigitCh (c : Char) : Bool := '0' ≤ c ∧ c ≤ '9'

/-- The JS regex class `[a-z0-9]` (used on already-lowercased command verbs). -/
def isLowerAlnum (c : Char) : Bool := isLowerAlpha c ∨ isDigitCh c

/-- The JS regex class `[A-Za-z0-9]`. -/
def isAlnumCh (c : Char) : Bool :=
  isLowerAlpha c ∨ isDigitCh c ∨ ('A' ≤ c ∧ c ≤ 'Z')

/-- JS `String.prototype.toLowerCase`, restricted to ASCII (no verb in these
claims contains a non-ASCII cased letter). -/
def lowerCh (c : Char) : Char :=
  if 'A' ≤ c ∧ c ≤ 'Z' then Char.ofNat (c.toNat + 32) else c

def lowerStr (s : Str) : Str := s.map lowerCh

/-- JS `String.prototype.trim` (remove leading and trailing whitespace). -/
def jsTrim (s : Str) : Str :=
  ((s.dropWhile isJsSpace).reverse.dropWhile isJsSpace).reverse

/-- JS `indexOf(c)`: index of the first occurrence, `none` for `-1`. -/
def jsIndexOf : Str → Char → Option Nat
  | [], _ => none
  | a :: rest, c =>
    if a = c then some 0 else (jsIndexOf rest c).map (· + 1)

/-- JS `startsWith`. -/
def jsStartsWith (s pre : Str) : Bool := pre.isPrefixOf s

/-- JS `endsWith`. -/
def jsEndsWith (s suf : Str) : Bool := suf.isSuffixOf s

/-- JS `charAt(i)` (returns `none` where JS returns the empty string). -/
def jsCharAt (s : Str) (i : Nat) : Option Char := s.get? i

/-- JS truthiness of a `string | null` value: `null` and `''` are falsy. -/
def jsTruthy : Option Str → Bool
  | none => false
  | some s => !s.isEmpty

/-! ## Constants (server/chat.ts lines 95-103) -/

def MAX_MESSAGE_LENGTH : Nat := 300

def BROADCAST_COOLDOWN : Int := 20 * 1000

def MESSAGE_COOLDOWN : Int := 5 * 60 * 1000

def MAX_PARSE_RECURSION : Nat := 10

def VALID_COMMAND_TOKENS : Str := ['/', '!']

def BROADCAST_TOKEN : Char := '!'

/-! ## Command registry (the value space of `Chat.commands`)

A registry entry is a handler function, an alias string, an array of help
strings, or a nested sub-registry (`AnnotatedChatCommands`).  Handler functions
are identified by an abstract `Nat` id; their behaviour is supplied separately
as an oracle where needed.  A sub-registry object is written as a
`subCons`/`subNil` chain of key-value pairs (the own enumerable properties of
the JS object, in insertion order). -/

inductive ChatEntry : Type where
  | func (id : Nat)
  | aliasTo (s : Str)
  | helpLines (lines : List Str)
  | subNil
  | subCons (key : Str) (val : ChatEntry) (rest : ChatEntry)
deriving DecidableEq

/-- JS `typeof x === 'object'` for registry values: sub-registry objects and
help arrays are objects; functions and strings are not. -/
def ChatEntry.isObject : ChatEntry → Bool
  | .helpLines _ => true
  | .subNil => true
  | .subCons _ _ _ => true
  | _ => false

/-- Canonical decimal numeral test, for JS array index lookup
(`cmd in someArray` holds exactly for canonical indices `"0"`, `"1"`, ...). -/
def decIndex? (s : Str) : Option Nat :=
  match s with
  | [] => none
  | ['0'] => some 0
  | c :: rest =>
    if '1' ≤ c ∧ c ≤ '9' ∧ rest.all isDigitCh then
      some ((c :: rest).foldl (fun n d => 10 * n + (d.toNat - '0'.toNat)) 0)
    else none

/-- Property lookup `curCommands[cmd]`.  On a sub-registry object this is
assoc-list lookup; on a help array, a canonical index returns the help line at
that position (a string value, which the resolver then treats as an alias);
the array's `length` property and anything else is absent.  -/
def lookupEntry : ChatEntry → Str → Option ChatEntry
  | .subCons k v rest, key => if k = key then some v else lookupEntry rest key
  | .helpLines lines, key =>
    match decIndex? key with
    | some i => (lines.get? i).map ChatEntry.aliasTo
    | none => none
  | _, _ => none

/-- Structural size of a registry entry; used as recursion fuel for the
resolver's descent loop. -/
def entrySize : ChatEntry → Nat
  | .func _ => 1
  | .aliasTo _ => 1
  | .helpLines _ => 1
  | .subNil => 1
  | .subCons _ v rest => 1 + entrySize v + entrySize rest

/-! ## Command Resolver (`CommandContext.parseCommand`, chat.ts lines 520-620) -/

/-- The resolved invocation descriptor returned by `parseCommand`
(chat.ts lines 613-619).  `handler` is the final `commandHandler` value: a
handler function in the normal case, `none` for "not found", and possibly a
string or array entry when the registry is malformed (the JS code casts it
unchecked). -/
structure ParsedCmd where
  cmd : Str
  cmdToken : Str
  target : Str
  fullCmd : Str
  handler : Option ChatEntry
deriving DecidableEq

/-- The hardcoded textual rewrites at the top of `parseCommand`
(chat.ts lines 525-534): console-eval shorthand and the `/me` shorthand that
needs a non-alphanumeric, non-space character right after it. -/
def hardcodedRewrites (message : Str) : Str :=
  if jsStartsWith message ('>' :: '>' :: ' ' :: []) then
    ("/eval ".data ++ message.drop 3)
  else if jsStartsWith message ('>' :: '>' :: '>' :: ' ' :: []) then
    ("/evalbattle ".data ++ message.drop 4)
  else if jsStartsWith message "/me".data ∧ meTestChar (jsCharAt message 3) then
    ("/mee ".data ++ message.drop 3)
  else if jsStartsWith message "/ME".data ∧ meTestChar (jsCharAt message 3) then
    ("/MEE ".data ++ message.drop 3)
  else message
where
  /-- `/[^A-Za-z0-9 ]/.test(message.charAt(3))`; the test is false on the
  empty string (absent character). -/
  meTestChar : Option Char → Bool
    | none => false
    | some c => !(isAlnumCh c ∨ c = ' ')

/-- The initial verb/target split (chat.ts lines 544-551): split at the first
space if its index is positive, lowercase the verb, trim the target. -/
def splitVerb (message : Str) : Str × Str :=
  match jsIndexOf message ' ' with
  | some i =>
    if 0 < i then
      (lowerStr (message.take i |>.drop 1), jsTrim (message.drop (i + 1)))
    else (lowerStr (message.drop 1), [])
  | none => (lowerStr (message.drop 1), [])

/-- Consuming the next sub-verb from `target` inside the descent loop
(chat.ts lines 572-579); unlike `splitVerb` this does not trim. -/
def splitTarget (target : Str) : Str × Str :=
  match jsIndexOf target ' ' with
  | some i =>
    if 0 < i then (lowerStr (target.take i), target.drop (i + 1))
    else (lowerStr target, [])
  | none => (lowerStr target, [])

/-- One iteration of the registry descent loop (chat.ts lines 559-584), up to
the point where either the loop continues into a nested object, stops, or
returns the help redirection:
* a string entry is an alias and is substituted by one more lookup
  (line 565-567);
* an array entry found directly, when not already recursing, triggers the
  `help` redirection (line 568-570) - note the array check is an `else if`,
  so an array reached through an alias substitution falls through to the
  object check instead;
* any object entry (sub-registry, or array while recursing) makes the loop
  descend into it (lines 571-583). -/
inductive StepOut : Type where
  | redirect
  | continueWith (e : ChatEntry)
  | finish (ch : Option ChatEntry)

def resolveStep (recursing : Bool) (cur : ChatEntry) (cmd : Str) : StepOut :=
  match lookupEntry cur cmd with
  | some (.aliasTo s) =>
    match lookupEntry cur s with
    | some e => if e.isObject then .continueWith e else .finish (some e)
    | none => .finish none
  | some (.helpLines ls) =>
    if recursing then .continueWith (.helpLines ls) else .redirect
  | some e => if e.isObject then .continueWith e else .finish (some e)
  | none => .finish none

/-- Result of the whole descent loop: the final `curCommands`, `cmd`,
`target`, `fullCmd` and `commandHandler` on normal exit, or the pending help
redirection.  `fuelOut` is unreachable for the fuel used by `parseCommand`
(theorem `descend_no_fuelOut`). -/
inductive DescendOut : Type where
  | done (cur : ChatEntry) (cmd target fullCmd : Str) (handler : Option ChatEntry)
  | helpRedirect (fullCmd : Str)
  | fuelOut
deriving DecidableEq

def descend (fuel : Nat) (recursing : Bool) (cur : ChatEntry)
    (cmd target fullCmd : Str) : DescendOut :=
  match fuel with
  | 0 => .fuelOut
  | fuel + 1 =>
    match resolveStep recursing cur cmd with
    | .redirect => .helpRedirect fullCmd
    | .finish ch => .done cur cmd target fullCmd ch
    | .continueWith e =>
      let p := splitTarget target
      descend fuel recursing e p.1 p.2 (fullCmd ++ ' ' :: p.1)

/-- The permission-group shorthand rewrites (chat.ts lines 593-611): when no
handler resolved and we are not already re-resolving, a `fullCmd` equal to (a
decorated form of) a configured group id rewrites to the corresponding
promote/demote invocation.  `groups` is `Config.groups` as an ordered list of
`(g, groupid)` pairs (the for-in key and its `id` field); the first matching
pattern of the first matching group wins, like the JS loop's early returns. -/
def groupRewrite (groups : List (Str × Str)) (fullCmd target : Str) :
    Option Str :=
  match groups with
  | [] => none
  | (g, groupid) :: rest =>
    if fullCmd = groupid then
      some ("/promote ".data ++ target ++ ", ".data ++ g)
    else if fullCmd = "global".data ++ groupid then
      some ("/globalpromote ".data ++ target ++ ", ".data ++ g)
    else if fullCmd = "de".data ++ groupid ∨ fullCmd = "un".data ++ groupid ∨
        fullCmd = "globalde".data ++ groupid ∨
        fullCmd = "deglobal".data ++ groupid then
      some ("/demote ".data ++ target)
    else if fullCmd = "room".data ++ groupid then
      some ("/roompromote ".data ++ target ++ ", ".data ++ g)
    else if fullCmd = "forceroom".data ++ groupid then
      some ("/forceroompromote ".data ++ target ++ ", ".data ++ g)
    else if fullCmd = "roomde".data ++ groupid ∨
        fullCmd = "deroom".data ++ groupid ∨
        fullCmd = "roomun".data ++ groupid then
      some ("/roomdemote ".data ++ target)
    else groupRewrite rest fullCmd target

/-- JS `slice(0, -4)` (drop the last four characters; empty when shorter). -/
def sliceDropLast4 (s : Str) : Str := s.take (s.length - 4)

/-- The part of `parseCommand` shared by both values of the `recursing` flag:
empty-after-trim check, hardcoded rewrites, command-token checks
(lines 523-539), verb/target split with trailing-comma tolerance
(lines 544-553), and the descent loop.  Returns the command token and the
descent result, or `none` when `parseCommand` returns `null` up front. -/
def parseCmdCore (cmds : ChatEntry) (message : Str) (recursing : Bool) :
    Option (Char × DescendOut) :=
  if (jsTrim message).isEmpty then none
  else
    let message := hardcodedRewrites message
    match jsCharAt message 0 with
    | none => none
    | some cmdToken =>
      if ¬(cmdToken ∈ VALID_COMMAND_TOKENS) then none
      else if jsCharAt message 1 = some cmdToken then none
      else if cmdToken = BROADCAST_TOKEN ∧
          (match jsCharAt message 1 with
           | some c => !isAlnumCh c
           | none => false) = true then none
      else
        let p := splitVerb message
        let cmd := if p.1.getLast? = some ',' then p.1.dropLast else p.1
        some (cmdToken, descend (entrySize cmds + 1) recursing cmds cmd p.2 cmd)

/-- The tail of `parseCommand` after the descent loop (chat.ts lines 586-619):
`default`-entry fallback (with one alias substitution), and the final
descriptor. -/
def finishDescriptor (cmdToken : Char) (cur : ChatEntry)
    (cmd target fullCmd : Str) (ch : Option ChatEntry) : ParsedCmd :=
  let ch :=
    match ch with
    | none =>
      match lookupEntry cur "default".data with
      | some (.aliasTo s) => lookupEntry cur s
      | x => x
    | x => x
  { cmd := cmd, cmdToken := [cmdToken], target := target,
    fullCmd := fullCmd, handler := ch }

/-- `parseCommand` specialised to `recursing = true`: this is the re-resolution
entered from the help redirection and from the group-shorthand rewrites.  All
recursive calls in the JS function pass `recursing = true` (lines 569 and
597-608), so this instance performs no further re-resolution: the array branch
and the group-shorthand branch are disabled by the flag.  The `helpRedirect`
and `fuelOut` arms are unreachable here (theorems `descend_true_no_redirect`
and `descend_no_fuelOut`); they return `none` as a proven-dead default. -/
def parseCmdRec (cmds : ChatEntry) (message : Str) : Option ParsedCmd :=
  match parseCmdCore cmds message true with
  | none => none
  | some (cmdToken, out) =>
    match out with
    | .done cur cmd target fullCmd ch =>
      some (finishDescriptor cmdToken cur cmd target fullCmd ch)
    | .helpRedirect _ => none
    | .fuelOut => none

/-- `CommandContext.parseCommand` (chat.ts lines 520-620) on a top-level
(`recursing = false`) message.  The second component counts how many times
resolution re-entered `parseCommand` with the `recursing` flag set (the help
redirection of line 569 or a group-shorthand rewrite of lines 597-608). -/
def parseCommand (cmds : ChatEntry) (groups : List (Str × Str))
    (message : Str) : Option ParsedCmd × Nat :=
  match parseCmdCore cmds message false with
  | none => (none, 0)
  | some (cmdToken, out) =>
    match out with
    | .helpRedirect fullCmd =>
      (parseCmdRec cmds
        (cmdToken :: ("help ".data ++ sliceDropLast4 fullCmd)), 1)
    | .fuelOut => (none, 0)
    | .done cur cmd target fullCmd ch =>
      let d := finishDescriptor cmdToken cur cmd target fullCmd ch
      match d.handler with
      | none =>
        match groupRewrite groups fullCmd target with
        | some rewritten => (parseCmdRec cmds rewritten, 1)
        | none => (some d, 0)
      | some _ => (some d, 0)

/-! ## Plugin filter chain (`Chat.filter`, chat.ts lines 1404-1425) -/

/-- A chat filter's possible return values (chat.ts lines 75-83, 1412-1415):
`false` or `null` to suppress, a replacement string, or `undefined` for "no
opinion".  The filter's other arguments (user, room, connection) do not affect
the chain's control flow and are closed over. -/
inductive FilterOut : Type where
  | str (s : Str)
  | fals
  | nul
  | undef
deriving DecidableEq

/-- `Chat.filter` (chat.ts lines 1404-1425).  For each filter in order:
`false` returns `null`; a falsy non-`undefined` value (that is `null`, or the
empty string) is returned as is; any other string becomes the new in-flight
message; `undefined` leaves it unchanged. -/
def chatFilter : List (Str → FilterOut) → Str → Option Str
  | [], message => some message
  | f :: rest, message =>
    match f message with
    | .fals => none
    | .nul => none
    | .str s => if s.isEmpty then some [] else chatFilter rest s
    | .undef => chatFilter rest message

/-- Instrumented form of `chatFilter` whose second component records the
in-flight text handed to each filter that is actually invoked. -/
def chatFilterTrace : List (Str → FilterOut) → Str → Option Str × List Str
  | [], message => (some message, [])
  | f :: rest, message =>
    match f message with
    | .fals => (none, [message])
    | .nul => (none, [message])
    | .str s =>
      if s.isEmpty then (some [], [message])
      else
        let r := chatFilterTrace rest s
        (r.1, message :: r.2)
    | .undef =>
      let r := chatFilterTrace rest message
      (r.1, message :: r.2)

/-- Control-flow state of the chain after a prefix of the filters: either the
chain already produced its final value, or the given text is still in flight. -/
inductive ChainFlow : Type where
  | stopped (r : Option Str)
  | flowing (message : Str)
deriving DecidableEq

def chainStep : List (Str → FilterOut) → Str → ChainFlow
  | [], message => .flowing message
  | f :: rest, message =>
    match f message with
    | .fals => .stopped none
    | .nul => .stopped none
    | .str s => if s.isEmpty then .stopped (some []) else chainStep rest s
    | .undef => chainStep rest message

/-! ## Message validation pipeline (`CommandContext.canTalk`, lines 957-1153) -/

/-- `﷽` - the format-control character whose occurrences are weighted at
11 characters each by the length check (chat.ts line 1062). -/
def FDFD : Char := '﷽'

/-- `message.replace(/[^﷽]*/g, '').length`: the number of occurrences of
`﷽` (every maximal run of other characters is deleted). -/
def countFdfd (message : Str) : Nat := (message.filter (· = FDFD)).length

/-- The weighted length of chat.ts lines 1061-1062:
`message.length + 10 * (number of ﷽ occurrences)`. -/
def weightedLength (message : Str) : Nat :=
  message.length + 10 * countFdfd message

/-- Member of the zalgo combining-mark classes removed at chat.ts line 1070. -/
def isZalgoChar (c : Char) : Bool :=
  ('̀' ≤ c ∧ c ≤ 'ͯ') ∨ ('҃' ≤ c ∧ c ≤ '҉') ∨
  ('ؐ' ≤ c ∧ c ≤ 'ؕ') ∨ ('ً' ≤ c ∧ c ≤ 'ٟ') ∨
  c = 'ٰ' ∨ ('ۖ' ≤ c ∧ c ≤ 'ۜ') ∨
  ('۟' ≤ c ∧ c ≤ 'ۭ') ∨ c = 'ั' ∨
  ('ิ' ≤ c ∧ c ≤ 'ฺ') ∨ ('็' ≤ c ∧ c ≤ '๎')

/-- `message.replace(/[zalgo classes]{3,}/g, '')` (chat.ts line 1070): every
maximal run of three or more combining marks is removed; runs of one or two
are kept.  `pending` is the current run of combining marks, reversed. -/
def removeZalgoAux (pending : Str) : Str → Str
  | [] => if pending.length ≥ 3 then [] else pending.reverse
  | c :: rest =>
    if isZalgoChar c then removeZalgoAux (c :: pending) rest
    else
      (if pending.length ≥ 3 then [] else pending.reverse) ++
        c :: removeZalgoAux [] rest

def removeZalgo (message : Str) : Str := removeZalgoAux [] message

/-- Banned invisible/line-drawing characters (chat.ts line 1071). -/
def hasBannedChars (message : Str) : Bool :=
  message.any fun c =>
    c = 'ᅟ' ∨ c = 'ᅠ' ∨ ('⎛' ≤ c ∧ c ≤ '⎹')

/-- Modelled from the spec: `toID` is defined in `sim/dex` which is outside
these sources; per the spec's data model, verbs and room identifiers are
"case-insensitive identifiers", and `toID` is the normalization producing
them: lowercase the text and strip every character that is not a lowercase
ASCII letter or digit. -/
def toID (text : Str) : Str := (lowerStr text).filter isLowerAlnum

/-- `.replace(/[^a-z]+/, '')` (chat.ts line 1140): the regex has no `g` flag,
so only the FIRST maximal run of non-letters is removed. -/
def removeFirstNonLetterRun : Str → Str
  | [] => []
  | c :: rest =>
    if isLowerAlpha c then c :: removeFirstNonLetterRun rest
    else rest.dropWhile (fun d => !isLowerAlpha d)

/-- Reason tags for the short-circuiting rejections of the message section of
`canTalk` (each corresponds to one `errorReply`-then-`return null` site). -/
inductive Reason : Type where
  | userState
  | blank
  | tooLong
  | bannedChars
  | links
  | format
  | slowchat
  | banwordName
  | banwordStatus
  | banwordMessage
  | gameFilter
  | sameMessage
  | minLength
  | filtered
deriving DecidableEq

inductive TalkResult : Type where
  | reject (r : Reason)
  | pass (message : Str)
deriving DecidableEq

/-- The inputs `canTalk` consults besides the message itself.  Fields marked
"collaborator" summarise state owned by user/room/config collaborators and the
checks that only read such state; each cites the lines it stands for. -/
structure TalkEnv : Type where
  /-- collaborator: the user-state checks of chat.ts lines 972-1053 (named,
  lock/namelock, mute, modchat rank, room membership, and the PM checks) all
  pass.  When false, one of them rejects before the message is looked at. -/
  userStateOk : Bool
  /-- `user.can('ignorelimits')` (line 1063). -/
  ignorelimits : Bool
  /-- `user.can('bypassall')` (lines 1107, 1111, 1129). -/
  bypassall : Bool
  /-- `user.can('mute', null, room)` (line 1115). -/
  canMute : Bool
  /-- `user.can('show', null, room)` (line 1141). -/
  canShow : Bool
  /-- collaborator: the link-restriction stage of lines 1076-1094 rejects the
  given (zalgo-stripped) message: `Config.restrictLinks` is set, the user is
  not autoconfirmed, some link is not whitelisted, and neither the staff-PM
  nor the help-room exemption applies. -/
  linksReject : Str → Bool
  /-- collaborator: `this.checkFormat(room, user, message)` (line 1096),
  reading the room's format-policy settings. -/
  formatOk : Str → Bool
  /-- collaborator: `this.checkSlowchat(room, user)` (line 1100). -/
  slowchatOk : Bool
  /-- collaborator: `this.checkBanwords(room, user.name)` (line 1107). -/
  nameBanwordOk : Bool
  /-- collaborator: `user.userMessage && !this.checkBanwords(room,
  user.userMessage)` (line 1111): the user has a status message and it matches
  the room's ban-word pattern. -/
  statusBanwordHit : Bool
  /-- collaborator: `this.checkBanwords(room, message)` (line 1115). -/
  messageBanwordOk : Str → Bool
  /-- collaborator: `this.checkGameFilter()` (lines 1120-1124); a string
  result vetoes the message. -/
  gameFilter : Option Str
  /-- `this.room` is non-null, with its id and highTraffic setting (lines
  1126-1146). -/
  room : Option (Str × Bool)
  /-- collaborator: `user.lastMessage` (line 1129). -/
  lastMessage : Str
  /-- collaborator: `user.lastMessageTime` (line 1130). -/
  lastMessageTime : Int
  /-- `Date.now()` at the time of the call. -/
  now : Int
  /-- `Chat.filters` (lines 1148-1150). -/
  filters : List (Str → FilterOut)

/-- The tail of the `canTalk` message section: the checks from the banned
character test of line 1071 onward, applied to the already zalgo-stripped
message. -/
def canTalkRest (env : TalkEnv) (message : Str) : TalkResult :=
    if hasBannedChars message then .reject .bannedChars
    else if env.linksReject message then .reject .links
    else if !env.formatOk message then .reject .format
    else if !env.slowchatOk then .reject .slowchat
    else if ¬env.nameBanwordOk ∧ ¬env.bypassall then .reject .banwordName
    else if env.statusBanwordHit ∧ ¬env.bypassall then .reject .banwordStatus
    else if ¬env.messageBanwordOk message ∧ ¬env.canMute then
      .reject .banwordMessage
    else if env.gameFilter.isSome then .reject .gameFilter
    else if (match env.room with
             | some (roomid, _) =>
               !env.bypassall &&
               (roomid = "help".data ∨ roomid = "lobby".data) &&
               jsTrim message = env.lastMessage &&
               decide (env.now - env.lastMessageTime < MESSAGE_COOLDOWN)
             | none => false) then .reject .sameMessage
    else if (match env.room with
             | some (_, highTraffic) =>
               highTraffic &&
               decide ((removeFirstNonLetterRun (toID message)).length < 2) &&
               !env.canShow
             | none => false) then .reject .minLength
    else if !env.filters.isEmpty then
      match chatFilter env.filters message with
      | none => .reject .filtered
      | some s => .pass s
    else .pass message

/-- The message section of `CommandContext.canTalk` (chat.ts lines 957-1153),
called with a string message.  The user-state section (lines 972-1053) is
summarised by `env.userStateOk`; `canTalkRest` is the code from the zalgo
strip of line 1070 onward, applied to the stripped message.  The in-place
updates of `user.lastMessage` and `user.lastMessageTime` (lines 1135-1136)
are side effects on the user collaborator and are not part of the returned
value. -/
def canTalk (env : TalkEnv) (message : Str) : TalkResult :=
  if !env.userStateOk then .reject .userState
  else if message.isEmpty then .reject .blank
  else if weightedLength message > MAX_MESSAGE_LENGTH ∧ ¬env.ignorelimits then
    .reject .tooLong
  else canTalkRest env (removeZalgo message)

/-! ## Broadcast Controller (`canBroadcast` / `runBroadcast`, lines 884-954) -/

/-- The room fields the broadcast cooldown reads and writes
(`room.lastBroadcast`, `room.lastBroadcastTime`). -/
structure RoomBC : Type where
  lastBroadcast : Str
  lastBroadcastTime : Int
deriving DecidableEq

/-- The slice of a `CommandContext` that the broadcast controller uses. -/
structure BCtx : Type where
  broadcasting : Bool
  cmdToken : Str
  message : Str
  broadcastMessage : Str
  room : Option RoomBC
  /-- `this.pmTarget` is non-null (line 898). -/
  hasPmTarget : Bool
  /-- collaborator: `this.user.can('show', null, this.room)` (line 892). -/
  canShow : Bool
  /-- collaborator: `this.user.can('bypassall')` (line 909). -/
  bypassall : Bool
deriving DecidableEq

/-- The broadcast normalization of chat.ts line 905:
`.toLowerCase().replace(/[^a-z0-9\s!,]/g, '')`. -/
def normalizeBroadcast (message : Str) : Str :=
  (lowerStr message).filter fun c =>
    isLowerAlnum c ∨ isJsSpace c ∨ c = '!' ∨ c = ','

/-- `CommandContext.canBroadcast` (chat.ts lines 887-924).  `canTalkO` is the
validation pipeline applied to the literal invocation text (line 914),
returning the possibly rewritten message or `null`.  Returns the boolean
result together with the updated context (lines 921-922 set `this.message`
and `this.broadcastMessage` on success). -/
def canBroadcast (canTalkO : Str → Option Str) (now : Int) (ctx : BCtx)
    (ignoreCooldown : Bool) (suppressMessage : Option Str) : Bool × BCtx :=
  if ctx.broadcasting ∨ ctx.cmdToken ≠ [BROADCAST_TOKEN] then (true, ctx)
  else if ctx.room.isSome ∧ ¬ctx.canShow then (false, ctx)
  else if ctx.room.isNone ∧ ¬ctx.hasPmTarget then (false, ctx)
  else
    let broadcastMessage :=
      normalizeBroadcast (suppressMessage.getD ctx.message)
    if (!ignoreCooldown &&
        (match ctx.room with
         | some r =>
           r.lastBroadcast = broadcastMessage &&
           decide (r.lastBroadcastTime ≥ now - BROADCAST_COOLDOWN)
         | none => false) &&
        !ctx.bypassall) = true then (false, ctx)
    else
      match canTalkO (suppressMessage.getD ctx.message) with
      | none => (false, ctx)
      | some message =>
        (true, { ctx with message := message,
                          broadcastMessage := broadcastMessage })

/-- `CommandContext.runBroadcast` (chat.ts lines 925-954).  The reply routing
(lines 938-942) and the language pinning (line 946) are side effects on
collaborators; the state this returns is the context and its room record,
which lines 947-950 update with the normalized text and timestamp unless the
cooldown is ignored. -/
def runBroadcast (canTalkO : Str → Option Str) (now : Int) (ctx : BCtx)
    (ignoreCooldown : Bool) (suppressMessage : Option Str) : Bool × BCtx :=
  if ctx.broadcasting ∨ ctx.cmdToken ≠ [BROADCAST_TOKEN] then (true, ctx)
  else
    let checked :=
      if ctx.broadcastMessage.isEmpty then
        canBroadcast canTalkO now ctx ignoreCooldown suppressMessage
      else (true, ctx)
    if !checked.1 then (false, checked.2)
    else
      let ctx := { checked.2 with broadcasting := true }
      let ctx :=
        match ctx.room with
        | some _ =>
          if ¬ignoreCooldown then
            { ctx with room := some ⟨ctx.broadcastMessage, now⟩ }
          else ctx
        | none => ctx
      (true, ctx)

/-! ## Execution context: subcontext spawning (`parse(msg)`, lines 406-421) -/

/-- The fields of `CommandContext` that its constructor initialises and that
the spawning path of `parse` touches (chat.ts lines 351-404, 406-421).
`recursionDepth` is declared on `MessageContext` (line 194). -/
structure CommandContextS : Type where
  message : Str
  cmd : Str
  cmdToken : Str
  target : Str
  fullCmd : Str
  recursionDepth : Nat
  isQuiet : Bool
  broadcasting : Bool
  broadcastMessage : Str
deriving DecidableEq

/-- `new CommandContext(options)` where `options` is an existing context (the
spawning call site passes the parent context itself).  The constructor copies
`message`, `cmd`, `cmdToken`, `target` and `fullCmd` from `options`
(chat.ts lines 380-391) and resets the rest; `recursionDepth` is set to `0` by
the `MessageContext` constructor (line 198) and is NOT among the fields the
`CommandContext` constructor copies from `options` (lines 370-404). -/
def newCommandContext (options : CommandContextS) : CommandContextS :=
  { message := options.message
    cmd := options.cmd
    cmdToken := options.cmdToken
    target := options.target
    fullCmd := options.fullCmd
    recursionDepth := 0
    isQuiet := false
    broadcasting := false
    broadcastMessage := [] }

/-- The subcontext-spawning branch of `CommandContext.parse(msg, quiet)`
(chat.ts lines 406-420): construct a child context from the parent, increment
its recursion depth, throw "Too much command recursion" above
`MAX_PARSE_RECURSION`, and otherwise install the new message with cleared
command state (the child then re-enters `parse()` on its own message).
Returns the child context about to run, or the thrown error. -/
def parseSpawn (parent : CommandContextS) (msg : Str) (quiet : Bool) :
    Except Str CommandContextS :=
  let subcontext := newCommandContext parent
  let subcontext :=
    if quiet then { subcontext with isQuiet := true } else subcontext
  let subcontext :=
    { subcontext with recursionDepth := subcontext.recursionDepth + 1 }
  if subcontext.recursionDepth > MAX_PARSE_RECURSION then
    .error "Too much command recursion".data
  else
    .ok { subcontext with
          message := msg, cmd := [], fullCmd := [], cmdToken := [],
          target := [] }

/-- A chain of `n` nested sub-invocations, each spawned from the previous
context via `parse(msg)`. -/
def spawnChain : Nat → CommandContextS → Str → Except Str CommandContextS
  | 0, ctx, _ => .ok ctx
  | n + 1, ctx, msg =>
    match parseSpawn ctx msg false with
    | .error e => .error e
    | .ok child => spawnChain n child msg

/-- A fresh top-level context for a user message (depth 0). -/
def freshContext (message : Str) : CommandContextS :=
  { message := message, cmd := [], cmdToken := [], target := [], fullCmd := []
    recursionDepth := 0, isQuiet := false, broadcasting := false
    broadcastMessage := [] }

/-! ## Execution context: dispatch and error handling (`parse()`, 422-505) -/

/-- What a handler invocation does (the call at chat.ts line 628): return a
string, a boolean, `undefined`, or throw an error carrying a `name` and a
`message`.  Deferred (promise) results are resolved by the asynchronous
continuation of lines 479-497, whose error handling is textually identical to
the synchronous `catch`; this model covers the synchronous path. -/
inductive RunOutcome : Type where
  | retStr (s : Str)
  | retBool (b : Bool)
  | retUndef
  | throwE (name msg : Str)
deriving DecidableEq

/-- The value of the local `message` variable at the end of `parse`. -/
inductive JsResult : Type where
  | str (s : Str)
  | bool (b : Bool)
  | nullish
deriving DecidableEq

/-- The context object handed to `Monitor.crashlog` (chat.ts lines 469-474). -/
structure CrashReport : Type where
  note : Str
  userName : Str
  roomid : Option Str
  pmTargetName : Option Str
  message : Str
deriving DecidableEq

/-- Observable effects of one `parse()` call. -/
structure ParseOut : Type where
  /-- arguments of `this.errorReply` calls, in order. -/
  errorReplies : List Str
  /-- the crash report, if `Monitor.crashlog` was called. -/
  crashlog : Option CrashReport
  /-- the generic "Pokemon Showdown crashed!" notice was sent (line 475). -/
  genericCrashNotice : Bool
  /-- argument of `this.popupReply`, if `parse` exited through it (line 437). -/
  popup : Option Str
  /-- argument of `this.sendChatMessage`, if the message was delivered
  (lines 498-499). -/
  delivered : Option Str
  /-- the value `parse` returns. -/
  result : JsResult
deriving DecidableEq

/-- Collaborator inputs of `parse()` beyond the registry. -/
structure ParseEnv : Type where
  /-- `this.user.name` (line 470). -/
  userName : Str
  /-- `this.room?.roomid` (lines 433-438, 471). -/
  roomid : Option Str
  /-- `this.pmTarget?.name` (line 472). -/
  pmTargetName : Option Str
  /-- collaborator: `this.user.id in this.room.users` (line 433). -/
  userInRoom : Bool
  /-- handler metadata `handler.broadcastable` (line 623), by handler id. -/
  broadcastableOf : Nat → Bool
  /-- collaborator: the handler body (line 628), by handler id, given
  `this.target`. -/
  handlerRun : Nat → Str → RunOutcome
  /-- collaborator: `this.canTalk(message)` for a plain chat message
  (line 462); `none` is `null`. -/
  canTalkO : Str → Option Str

/-- Boolean test of a character at a JS string index (false when absent, as a
JS regex test on the empty string is). -/
def charAtIs (s : Str) (i : Nat) (p : Char → Bool) : Bool :=
  match jsCharAt s i with
  | some c => p c
  | none => false

/-- The text of `commandDoesNotExist()` (chat.ts lines 1371-1378), which
throws a `Chat.ErrorMessage`; its `name` is `'ErrorMessage'` (line 185). -/
def doesNotExistText (cmdToken : Str) (fullCmd : Str) : Str :=
  "The command ".data ++ cmdToken ++ fullCmd ++ " does not exist.".data

/-- `CommandContext.parse()` on this context's own message (chat.ts lines
422-505), synchronous path.  Faithfully modelled control flow:
* unresolved command state leaves `cmd`/`cmdToken`/... empty (lines 424-431);
* the room-membership guard (lines 433-439);
* `run()` (lines 621-632) inlined: the non-broadcastable `!` rejection, then
  the handler call with `undefined` coerced to `false`;
* the `catch` (lines 464-476): an error whose `name` ends in `'ErrorMessage'`
  is shown via `errorReply` and `parse` returns `false`; any other error goes
  to `Monitor.crashlog` with user/room/pmTarget/message context plus the
  generic crash notice, after which control falls through to the delivery
  section with the local `message` variable still holding the original
  message text (the interrupted assignment never completed);
* delivery (lines 498-500): a truthy non-`true` result is sent via
  `sendChatMessage`. -/
def parseRun (cmds : ChatEntry) (groups : List (Str × Str)) (env : ParseEnv)
    (message0 : Str) : ParseOut :=
  let parsed := (parseCommand cmds groups message0).1
  let cmd := (parsed.map (·.cmd)).getD []
  let cmdToken := (parsed.map (·.cmdToken)).getD []
  let target := (parsed.map (·.target)).getD []
  let fullCmd := (parsed.map (·.fullCmd)).getD []
  let handler : Option ChatEntry := (parsed.map (·.handler)).getD none
  -- lines 433-439: membership guard (popupReply exits parse with undefined)
  if env.roomid.isSome ∧ ¬env.userInRoom ∧ env.roomid ≠ some "lobby".data then
    { errorReplies := [], crashlog := none, genericCrashNotice := false,
      popup := some ("You tried to send a message to a room you are not in: ".data
        ++ message0),
      delivered := none, result := .nullish }
  else
    -- the try block; `caught` is a thrown (name, message), if any, and
    -- `msgVar` the local `message` variable afterwards
    let tryOut : List Str × JsResult × Option (Str × Str) :=
      match handler with
      | some (.func f) =>
        if ¬env.broadcastableOf f ∧ cmdToken = [BROADCAST_TOKEN] then
          (["The command cannot be broadcast.".data,
            "Use the slash form instead.".data], .bool false, none)
        else
          match env.handlerRun f target with
          | .retStr s => ([], .str s, none)
          | .retBool b => ([], .bool b, none)
          | .retUndef => ([], .bool false, none)
          | .throwE n m => ([], .str message0, some (n, m))
      | some _ =>
        -- a string or array entry cast to a handler: `handler.call` throws a
        -- TypeError, caught as an unexpected exception
        ([], .str message0,
         some ("TypeError".data, "handler is not a function".data))
      | none =>
        if ¬cmdToken.isEmpty then
          if !(cmdToken = [BROADCAST_TOKEN] && !charAtIs cmd 0 isLowerAlnum)
          then
            -- commandDoesNotExist() throws Chat.ErrorMessage
            ([], .str message0,
             some ("ErrorMessage".data, doesNotExistText cmdToken fullCmd))
          else
            -- broadcast token on a non-word: fall through to plain chat
            (match env.canTalkO message0 with
             | some s => ([], .str s, none)
             | none => ([], .nullish, none))
        else
          -- lines 454-460: leading-whitespace fixup, then canTalk
          let message1 :=
            if !charAtIs message0 0 (· ∈ VALID_COMMAND_TOKENS) &&
               charAtIs (jsTrim message0) 0 (· ∈ VALID_COMMAND_TOKENS) then
              let t := jsTrim message0
              if jsCharAt t 0 ≠ some BROADCAST_TOKEN then
                match jsCharAt t 0 with
                | some c => c :: t
                | none => t
              else t
            else message0
          (match env.canTalkO message1 with
           | some s => ([], .str s, none)
           | none => ([], .nullish, none))
    match tryOut.2.2 with
    | some (name, errMsg) =>
      if jsEndsWith name "ErrorMessage".data then
        -- lines 465-468: errorReply then `return false`
        { errorReplies := tryOut.1 ++ [errMsg], crashlog := none,
          genericCrashNotice := false, popup := none, delivered := none,
          result := .bool false }
      else
        -- lines 469-475, then fall through to delivery with msgVar
        let msgVar := tryOut.2.1
        { errorReplies := tryOut.1,
          crashlog := some ⟨"A chat command".data, env.userName, env.roomid,
            env.pmTargetName, message0⟩,
          genericCrashNotice := true, popup := none,
          delivered :=
            (match msgVar with
             | .str s => if s.isEmpty then none else some s
             | _ => none),
          result := msgVar }
    | none =>
      let msgVar := tryOut.2.1
      { errorReplies := tryOut.1, crashlog := none,
        genericCrashNotice := false, popup := none,
        delivered :=
          (match msgVar with
           | .str s => if s.isEmpty then none else some s
           | _ => none),
        result := msgVar }

/-! ## Structural lemmas about the resolver -/

theorem lookupEntry_size {cur e : ChatEntry} {k : Str}
    (h : lookupEntry cur k = some e) (ho : e.isObject = true) :
    entrySize e < entrySize cur := by
  induction cur with
  | subCons k0 v rest _ ih =>
    rw [lookupEntry] at h
    by_cases hk : k0 = k
    · simp only [hk, if_pos rfl] at h
      cases h
      simp [entrySize]
      omega
    · simp only [if_neg hk] at h
      have := ih h
      simp [entrySize]
      omega
  | helpLines lines =>
    rw [lookupEntry] at h
    cases hd : decIndex? k with
    | none => simp [hd] at h
    | some i =>
      simp only [hd] at h
      cases hg : lines.get? i with
      | none => rw [hg] at h; simp at h
      | some line =>
        rw [hg] at h
        simp at h
        rw [← h] at ho
        simp [ChatEntry.isObject] at ho
  | func i => simp [lookupEntry] at h
  | aliasTo a => simp [lookupEntry] at h
  | subNil => simp [lookupEntry] at h

theorem resolveStep_continueWith_size {r : Bool} {cur e : ChatEntry} {cmd : Str}
    (h : resolveStep r cur cmd = .continueWith e) :
    entrySize e < entrySize cur := by
  unfold resolveStep at h
  cases h1 : lookupEntry cur cmd with
  | none => simp [h1] at h
  | some e1 =>
    cases e1 with
    | aliasTo s =>
      simp only [h1] at h
      cases h2 : lookupEntry cur s with
      | none => simp [h2] at h
      | some e2 =>
        simp only [h2] at h
        by_cases ho : e2.isObject = true
        · simp only [ho, if_pos rfl] at h
          cases h
          exact lookupEntry_size h2 ho
        · simp [ho] at h
    | helpLines ls =>
      simp only [h1] at h
      cases r with
      | true =>
        simp at h
        cases h
        exact lookupEntry_size h1 rfl
      | false => simp at h
    | func i =>
      simp only [h1] at h
      simp [ChatEntry.isObject] at h
    | subNil =>
      simp only [h1, ChatEntry.isObject] at h
      cases h
      exact lookupEntry_size h1 rfl
    | subCons k0 v rest =>
      simp only [h1, ChatEntry.isObject] at h
      cases h
      exact lookupEntry_size h1 rfl

theorem descend_no_fuelOut :
    ∀ (fuel : Nat) (r : Bool) (cur : ChatEntry) (cmd target fullCmd : Str),
    entrySize cur < fuel →
    descend fuel r cur cmd target fullCmd ≠ .fuelOut := by
  intro fuel
  induction fuel with
  | zero => intro r cur cmd target fullCmd h; omega
  | succ n ih =>
    intro r cur cmd target fullCmd h
    rw [descend]
    cases hs : resolveStep r cur cmd with
    | redirect => simp
    | finish ch => simp
    | continueWith e =>
      simp only []
      have := resolveStep_continueWith_size hs
      exact ih r e _ _ _ (by omega)

theorem resolveStep_true_no_redirect (cur : ChatEntry) (cmd : Str) :
    resolveStep true cur cmd ≠ .redirect := by
  unfold resolveStep
  cases h1 : lookupEntry cur cmd with
  | none => simp
  | some e1 =>
    cases e1 with
    | aliasTo s =>
      cases h2 : lookupEntry cur s with
      | none => simp [h2]
      | some e2 => by_cases ho : e2.isObject = true <;> simp [h2, ho]
    | helpLines ls => simp
    | func i => by_cases ho : (ChatEntry.func i).isObject = true <;> simp [ho]
    | subNil => simp [ChatEntry.isObject]
    | subCons k0 v rest => simp [ChatEntry.isObject]

theorem descend_true_no_redirect :
    ∀ (fuel : Nat) (cur : ChatEntry) (cmd target fullCmd fc : Str),
    descend fuel true cur cmd target fullCmd ≠ .helpRedirect fc := by
  intro fuel
  induction fuel with
  | zero => intro cur cmd target fullCmd fc; rw [descend]; simp
  | succ n ih =>
    intro cur cmd target fullCmd fc
    rw [descend]
    cases hs : resolveStep true cur cmd with
    | redirect => exact absurd hs (resolveStep_true_no_redirect cur cmd)
    | finish ch => simp
    | continueWith e => simpa using ih e _ _ _ fc

/-! ## Character and string lemmas -/

theorem lowerAlpha_bounds {c : Char} (h : isLowerAlpha c = true) :
    'a' ≤ c ∧ c ≤ 'z' := by
  simpa [isLowerAlpha] using h

theorem lowerAlpha_ne {c d : Char} (h : isLowerAlpha c = true)
    (hd : isLowerAlpha d = false) : c ≠ d := by
  intro heq
  rw [heq] at h
  rw [h] at hd
  exact Bool.noConfusion hd

theorem lowerAlpha_not_space {c : Char} (h : isLowerAlpha c = true) :
    isJsSpace c = false := by
  obtain ⟨h1, h2⟩ := lowerAlpha_bounds h
  simp only [isJsSpace, Bool.decide_or, Bool.or_eq_false_iff,
    decide_eq_false_iff_not]
  refine ⟨?_, ?_, ?_, ?_, ?_, ?_, ?_, ?_, ?_, ?_, ?_, ?_, ?_, ?_, ?_⟩ <;>
    first
      | exact lowerAlpha_ne h (by decide)
      | (rintro ⟨hle, -⟩; exact absurd (le_trans hle h2) (by decide))

theorem lowerCh_id {c : Char} (h : isLowerAlpha c = true) : lowerCh c = c := by
  obtain ⟨h1, _⟩ := lowerAlpha_bounds h
  unfold lowerCh
  rw [if_neg]
  rintro ⟨-, hZ⟩
  exact absurd (le_trans h1 hZ) (by decide)

theorem lowerStr_id {l : Str} (h : l.all isLowerAlpha = true) :
    lowerStr l = l := by
  induction l with
  | nil => rfl
  | cons c rest ih =>
    simp only [List.all_cons, Bool.and_eq_true] at h
    simp [lowerStr, lowerCh_id h.1]
    simpa [lowerStr] using ih h.2

theorem dropWhile_all_false {p : Char → Bool} {l : Str}
    (h : ∀ c ∈ l, p c = false) : l.dropWhile p = l := by
  cases l with
  | nil => rfl
  | cons c rest => simp [List.dropWhile, h c (by simp)]

theorem jsTrim_all_id {l : Str} (h : ∀ c ∈ l, isJsSpace c = false) :
    jsTrim l = l := by
  unfold jsTrim
  rw [dropWhile_all_false h,
      dropWhile_all_false (fun c hc => h c (List.mem_reverse.mp hc)),
      List.reverse_reverse]

theorem jsTrim_lower_id {l : Str} (h : l.all isLowerAlpha = true) :
    jsTrim l = l := by
  refine jsTrim_all_id fun c hc => lowerAlpha_not_space ?_
  simp only [List.all_eq_true] at h
  exact h c hc

theorem dropWhile_append_single {p : Char → Bool} {c : Char} (xs : Str)
    (hc : p c = false) : (xs ++ [c]).dropWhile p ≠ [] := by
  induction xs with
  | nil => simp [List.dropWhile, hc]
  | cons x rest ih =>
    by_cases hx : p x = true
    · simpa [List.dropWhile, hx] using ih
    · simp at hx
      simp [List.dropWhile, hx]

theorem jsTrim_cons_ne_nil {c : Char} {r : Str} (hc : isJsSpace c = false) :
    jsTrim (c :: r) ≠ [] := by
  unfold jsTrim
  rw [show (c :: r).dropWhile isJsSpace = c :: r from by
    simp [List.dropWhile, hc]]
  intro h
  rw [List.reverse_eq_nil_iff] at h
  rw [show (c :: r).reverse = r.reverse ++ [c] from by simp] at h
  exact dropWhile_append_single r.reverse hc h

theorem jsIndexOf_append_space {l : Str} (x : Str)
    (h : ∀ c ∈ l, c ≠ ' ') :
    jsIndexOf (l ++ ' ' :: x) ' ' = some l.length := by
  induction l with
  | nil => simp [jsIndexOf]
  | cons c rest ih =>
    have hc : c ≠ ' ' := h c (by simp)
    simp only [List.cons_append, jsIndexOf, if_neg hc, List.append_eq]
    rw [ih (fun d hd => h d (by simp [hd]))]
    simp

theorem jsIndexOf_none {l : Str} (h : ∀ c ∈ l, c ≠ ' ') :
    jsIndexOf l ' ' = none := by
  induction l with
  | nil => rfl
  | cons c rest ih =>
    simp only [jsIndexOf, if_neg (h c (by simp))]
    rw [ih (fun d hd => h d (by simp [hd]))]
    rfl

theorem isEmpty_false_of_ne_nil {l : Str} (h : l ≠ []) : l.isEmpty = false := by
  cases l with
  | nil => exact absurd rfl h
  | cons a l => rfl

theorem getLast?_all {p : Char → Bool} :
    ∀ {l : Str} {c : Char}, l.all p = true → l.getLast? = some c → p c = true := by
  intro l
  induction l with
  | nil => intro c _ hg; simp at hg
  | cons a rest ih =>
    intro c hall hg
    simp only [List.all_cons, Bool.and_eq_true] at hall
    cases rest with
    | nil =>
      simp [List.getLast?] at hg
      rw [← hg]
      exact hall.1
    | cons b rest2 =>
      rw [List.getLast?_cons_cons] at hg
      exact ih hall.2 hg

theorem all_lower_ne_space {V : Str} (hV : V.all isLowerAlpha = true) :
    ∀ c ∈ V, c ≠ ' ' := by
  intro c hc
  simp only [List.all_eq_true] at hV
  exact lowerAlpha_ne (hV c hc) (by decide)

/-- The hardcoded rewrites do not fire on a message of the form
`'/' :: V ++ tail` where `V` is a non-empty all-lowercase verb and `tail` is
empty or starts with a space. -/
theorem hardcodedRewrites_slash {V : Str} (tail : Str)
    (hV : V.all isLowerAlpha = true) (hVne : V ≠ [])
    (htail : tail = [] ∨ ∃ x, tail = ' ' :: x) :
    hardcodedRewrites ('/' :: (V ++ tail)) = '/' :: (V ++ tail) := by
  have hgt : ¬ (jsStartsWith ('/' :: (V ++ tail))
      ('>' :: '>' :: ' ' :: []) = true) := by
    simp [jsStartsWith, List.isPrefixOf]
  have hgt3 : ¬ (jsStartsWith ('/' :: (V ++ tail))
      ('>' :: '>' :: '>' :: ' ' :: []) = true) := by
    simp [jsStartsWith, List.isPrefixOf]
  rcases V with _ | ⟨a, V0⟩
  · exact absurd rfl hVne
  simp only [List.all_cons, Bool.and_eq_true] at hV
  obtain ⟨ha, hV0⟩ := hV
  have haM : a ≠ 'M' := lowerAlpha_ne ha (by decide)
  have hME : ¬ (jsStartsWith ('/' :: ((a :: V0) ++ tail)) "/ME".data = true) := by
    simp [jsStartsWith, List.isPrefixOf, String.data]
    intro h1
    exact fun h2 => absurd h1.symm haM
  unfold hardcodedRewrites
  rw [if_neg hgt, if_neg hgt3]
  rcases V0 with _ | ⟨b, V1⟩
  · -- V = [a]: the "/me" prefix needs 'e' at index 2, but there the message
    -- has either nothing or a space
    have hme : ¬ ((jsStartsWith ('/' :: ([a] ++ tail)) "/me".data ∧
        hardcodedRewrites.meTestChar
          (jsCharAt ('/' :: ([a] ++ tail)) 3) = true)) := by
      rintro ⟨h1, -⟩
      rcases htail with rfl | ⟨x, rfl⟩ <;>
        simp [jsStartsWith, List.isPrefixOf, String.data] at h1
    rw [if_neg hme, if_neg (by rintro ⟨h1, -⟩; exact hME h1)]
  simp only [List.all_cons, Bool.and_eq_true] at hV0
  obtain ⟨hb, hV1⟩ := hV0
  rcases V1 with _ | ⟨c, V2⟩
  · -- V = [a, b]: index 3 of the message is the head of `tail`
    have hme : ¬ ((jsStartsWith ('/' :: ([a, b] ++ tail)) "/me".data ∧
        hardcodedRewrites.meTestChar
          (jsCharAt ('/' :: ([a, b] ++ tail)) 3) = true)) := by
      rintro ⟨-, h2⟩
      rcases htail with rfl | ⟨x, rfl⟩ <;>
        simp [jsCharAt, hardcodedRewrites.meTestChar] at h2
    rw [if_neg hme, if_neg (by rintro ⟨h1, -⟩; exact hME h1)]
  · -- V = a :: b :: c :: V2: index 3 is the lowercase letter `c`
    simp only [List.all_cons, Bool.and_eq_true] at hV1
    obtain ⟨hc, -⟩ := hV1
    have hme : ¬ ((jsStartsWith ('/' :: ((a :: b :: c :: V2) ++ tail))
        "/me".data ∧
        hardcodedRewrites.meTestChar
          (jsCharAt ('/' :: ((a :: b :: c :: V2) ++ tail)) 3) = true)) := by
      rintro ⟨-, h2⟩
      simp [jsCharAt, hardcodedRewrites.meTestChar, isAlnumCh, hc] at h2
    rw [if_neg hme, if_neg (by rintro ⟨h1, -⟩; exact hME h1)]

theorem parseCmdCore_slash_space (cmds : ChatEntry) (r : Bool) {V : Str}
    (x : Str) (hV : V.all isLowerAlpha = true) (hVne : V ≠ []) :
    parseCmdCore cmds ('/' :: (V ++ ' ' :: x)) r =
      some ('/', descend (entrySize cmds + 1) r cmds V (jsTrim x) V) := by
  obtain ⟨a, V0, rfl⟩ : ∃ a V0, V = a :: V0 := by
    cases V with
    | nil => exact absurd rfl hVne
    | cons a V0 => exact ⟨a, V0, rfl⟩
  have ha : isLowerAlpha a = true := by
    simp only [List.all_cons, Bool.and_eq_true] at hV
    exact hV.1
  unfold parseCmdCore
  rw [if_neg (by
    rw [isEmpty_false_of_ne_nil (jsTrim_cons_ne_nil (by decide))]
    exact Bool.noConfusion)]
  rw [hardcodedRewrites_slash (' ' :: x) hV hVne (Or.inr ⟨x, rfl⟩)]
  have hchar0 : jsCharAt ('/' :: ((a :: V0) ++ ' ' :: x)) 0 = some '/' := rfl
  simp only [hchar0]
  rw [if_neg (by simp [VALID_COMMAND_TOKENS])]
  rw [if_neg (by
    have : jsCharAt ('/' :: ((a :: V0) ++ ' ' :: x)) 1 = some a := rfl
    rw [this]
    intro h
    cases h
    exact absurd rfl (lowerAlpha_ne ha (by decide)))]
  rw [if_neg (by rintro ⟨h, -⟩; exact absurd h (by decide))]
  have hns : ∀ c ∈ '/' :: a :: V0, c ≠ ' ' := by
    intro c hc
    rcases List.mem_cons.mp hc with rfl | hc2
    · decide
    · exact all_lower_ne_space hV c hc2
  have hsplit : splitVerb ('/' :: ((a :: V0) ++ ' ' :: x)) =
      (a :: V0, jsTrim x) := by
    unfold splitVerb
    rw [show ('/' :: ((a :: V0) ++ ' ' :: x)) =
      ('/' :: a :: V0) ++ ' ' :: x from by simp]
    rw [jsIndexOf_append_space x hns]
    simp only []
    rw [if_pos (by simp)]
    rw [List.take_left]
    rw [show ('/' :: a :: V0).length + 1 = (('/' :: a :: V0) ++ [' ']).length
      from by simp]
    rw [show ('/' :: a :: V0) ++ ' ' :: x =
      (('/' :: a :: V0) ++ [' ']) ++ x from by simp]
    rw [List.drop_left]
    rw [show List.drop 1 ('/' :: a :: V0) = a :: V0 from rfl]
    rw [lowerStr_id hV]
  rw [hsplit]
  simp only []
  rw [if_neg (fun hg => absurd (getLast?_all hV hg) (by decide))]

theorem parseCmdCore_slash_nospace (cmds : ChatEntry) (r : Bool) {V : Str}
    (hV : V.all isLowerAlpha = true) (hVne : V ≠ []) :
    parseCmdCore cmds ('/' :: V) r =
      some ('/', descend (entrySize cmds + 1) r cmds V [] V) := by
  obtain ⟨a, V0, rfl⟩ : ∃ a V0, V = a :: V0 := by
    cases V with
    | nil => exact absurd rfl hVne
    | cons a V0 => exact ⟨a, V0, rfl⟩
  have ha : isLowerAlpha a = true := by
    simp only [List.all_cons, Bool.and_eq_true] at hV
    exact hV.1
  unfold parseCmdCore
  rw [if_neg (by
    rw [isEmpty_false_of_ne_nil (jsTrim_cons_ne_nil (by decide))]
    exact Bool.noConfusion)]
  rw [show ('/' :: (a :: V0) : Str) = '/' :: ((a :: V0) ++ []) from by simp,
    hardcodedRewrites_slash [] hV hVne (Or.inl rfl)]
  have hchar0 : jsCharAt ('/' :: ((a :: V0) ++ [])) 0 = some '/' := rfl
  simp only [hchar0]
  rw [if_neg (by simp [VALID_COMMAND_TOKENS])]
  rw [if_neg (by
    have : jsCharAt ('/' :: ((a :: V0) ++ [])) 1 = some a := rfl
    rw [this]
    intro h
    cases h
    exact absurd rfl (lowerAlpha_ne ha (by decide)))]
  rw [if_neg (by rintro ⟨h, -⟩; exact absurd h (by decide))]
  have hsplit : splitVerb ('/' :: ((a :: V0) ++ [])) = (a :: V0, []) := by
    unfold splitVerb
    rw [show ('/' :: ((a :: V0) ++ []) : Str) = '/' :: a :: V0 from by simp]
    rw [jsIndexOf_none (by
      intro c hc
      rcases List.mem_cons.mp hc with rfl | hc2
      · decide
      · exact all_lower_ne_space hV c hc2)]
    simp only []
    rw [show List.drop 1 ('/' :: a :: V0) = a :: V0 from rfl]
    rw [lowerStr_id hV]
  rw [hsplit]
  simp only []
  rw [if_neg (fun hg => absurd (getLast?_all hV hg) (by decide))]

/-! ## The claims -/

/-- C1: the spec says each child context spawned by `CommandContext.parse(msg)`
has recursion depth parent + 1, with depth 10 still executing and depth 11
rejected.  The code instead gives EVERY spawned child depth 1: the
`CommandContext` constructor does not copy `recursionDepth` from its options
(it is reset to 0 by the `MessageContext` constructor), so the
`> MAX_PARSE_RECURSION` guard can never fire.  This theorem evaluates the
embedded code: every spawn succeeds with depth exactly 1 (never parent + 1),
and a chain of 11 nested sub-invocations runs instead of being rejected. -/
theorem claim_C1_code_eval :
    (∀ (parent : CommandContextS) (msg : Str) (quiet : Bool),
      (parseSpawn parent msg quiet).toOption.map (·.recursionDepth) = some 1) ∧
    (spawnChain 11 (freshContext "/chain".data) "/chain".data).toOption.map
      (·.recursionDepth) = some 1 := by
  constructor
  · intro parent msg quiet
    cases quiet <;> rfl
  · rfl

/-- No branch of the post-length-check tail of `canTalk` produces the
too-long rejection. -/
theorem canTalkRest_ne_tooLong (env : TalkEnv) (m : Str) :
    canTalkRest env m ≠ .reject .tooLong := by
  intro h
  unfold canTalkRest at h
  by_cases h1 : hasBannedChars m = true
  · rw [if_pos h1] at h; exact absurd h (by decide)
  rw [if_neg h1] at h
  by_cases h2 : env.linksReject m = true
  · rw [if_pos h2] at h; exact absurd h (by decide)
  rw [if_neg h2] at h
  by_cases h3 : (!env.formatOk m) = true
  · rw [if_pos h3] at h; exact absurd h (by decide)
  rw [if_neg h3] at h
  by_cases h4 : (!env.slowchatOk) = true
  · rw [if_pos h4] at h; exact absurd h (by decide)
  rw [if_neg h4] at h
  by_cases h5 : ¬env.nameBanwordOk = true ∧ ¬env.bypassall = true
  · rw [if_pos h5] at h; exact absurd h (by decide)
  rw [if_neg h5] at h
  by_cases h6 : env.statusBanwordHit = true ∧ ¬env.bypassall = true
  · rw [if_pos h6] at h; exact absurd h (by decide)
  rw [if_neg h6] at h
  by_cases h7 : ¬env.messageBanwordOk m = true ∧ ¬env.canMute = true
  · rw [if_pos h7] at h; exact absurd h (by decide)
  rw [if_neg h7] at h
  by_cases h8 : env.gameFilter.isSome = true
  · rw [if_pos h8] at h; exact absurd h (by decide)
  rw [if_neg h8] at h
  have htail : ∀ (hh : (if (!env.filters.isEmpty) = true then
      match chatFilter env.filters m with
      | none => TalkResult.reject Reason.filtered
      | some s => TalkResult.pass s
      else TalkResult.pass m) = TalkResult.reject Reason.tooLong), False := by
    intro hh
    by_cases hf : (!env.filters.isEmpty) = true
    · rw [if_pos hf] at hh
      cases hcf : chatFilter env.filters m <;> simp only [hcf] at hh
      · exact absurd hh (by decide)
      · exact TalkResult.noConfusion hh
    · rw [if_neg hf] at hh
      exact TalkResult.noConfusion hh
  rcases hroom : env.room with - | ⟨roomid, htr⟩ <;> simp only [hroom] at h
  · rw [if_neg (by decide), if_neg (by decide)] at h
    exact htail h
  · by_cases h9 : (!env.bypassall &&
        decide (roomid = "help".data ∨ roomid = "lobby".data) &&
        decide (jsTrim m = env.lastMessage) &&
        decide (env.now - env.lastMessageTime < MESSAGE_COOLDOWN)) = true
    · rw [if_pos h9] at h; exact absurd h (by decide)
    rw [if_neg h9] at h
    by_cases h10 : (htr &&
        decide ((removeFirstNonLetterRun (toID m)).length < 2) &&
        !env.canShow) = true
    · rw [if_pos h10] at h; exact absurd h (by decide)
    rw [if_neg h10] at h
    exact htail h

/-- C2: for a non-empty message and a user without `ignorelimits`, `canTalk`
rejects as too long exactly when the weighted length - the raw character count
plus 10 extra per `﷽` occurrence, so each occurrence counts as 11 - exceeds
the fixed ceiling `MAX_MESSAGE_LENGTH = 300`; in particular a message of 50
repeated `﷽` characters is rejected although its raw count is below the
ceiling. -/
theorem claim_C2 (env : TalkEnv) (message : Str)
    (hstate : env.userStateOk = true) (hlim : env.ignorelimits = false)
    (hne : message ≠ []) :
    ((canTalk env message = .reject .tooLong) ↔
      MAX_MESSAGE_LENGTH < weightedLength message) ∧
    weightedLength message =
      (message.length - countFdfd message) + 11 * countFdfd message ∧
    (message = List.replicate 50 FDFD →
      canTalk env message = .reject .tooLong ∧
      message.length < MAX_MESSAGE_LENGTH) := by
  have hrest : ∀ m, canTalkRest env m ≠ .reject .tooLong :=
    fun m => canTalkRest_ne_tooLong env m
  have hiff : (canTalk env message = .reject .tooLong) ↔
      MAX_MESSAGE_LENGTH < weightedLength message := by
    unfold canTalk
    rw [hstate, hlim]
    simp only [Bool.not_true, Bool.false_eq_true, if_false]
    rw [if_neg (by
      rw [isEmpty_false_of_ne_nil hne]
      exact Bool.noConfusion)]
    by_cases hw : MAX_MESSAGE_LENGTH < weightedLength message
    · rw [if_pos ⟨hw, by simp⟩]
      simp [hw]
    · rw [if_neg (by rintro ⟨h1, -⟩; exact hw h1)]
      exact iff_of_false (hrest _) hw
  refine ⟨hiff, ?_, ?_⟩
  · have hc : countFdfd message ≤ message.length :=
      List.length_filter_le _ _
    unfold weightedLength
    omega
  · rintro rfl
    refine ⟨hiff.mpr (by decide), by decide⟩

/-- A concrete pipeline environment for the C2 witness: user-state checks
pass, no special capabilities, every collaborator check passing, no room, no
filters. -/
def c2Env : TalkEnv :=
  { userStateOk := true, ignorelimits := false, bypassall := false,
    canMute := false, canShow := false, linksReject := fun _ => false,
    formatOk := fun _ => true, slowchatOk := true, nameBanwordOk := true,
    statusBanwordHit := false, messageBanwordOk := fun _ => true,
    gameFilter := none, room := none, lastMessage := [],
    lastMessageTime := 0, now := 0, filters := [] }

/-- Witness for C2 at the concrete input of 50 repeated `﷽` characters. -/
theorem claim_C2_witness :
    ((canTalk c2Env (List.replicate 50 FDFD) = .reject .tooLong) ↔
      MAX_MESSAGE_LENGTH < weightedLength (List.replicate 50 FDFD)) ∧
    weightedLength (List.replicate 50 FDFD) =
      ((List.replicate 50 FDFD : Str).length -
        countFdfd (List.replicate 50 FDFD)) +
      11 * countFdfd (List.replicate 50 FDFD) ∧
    ((List.replicate 50 FDFD : Str) = List.replicate 50 FDFD →
      canTalk c2Env (List.replicate 50 FDFD) = .reject .tooLong ∧
      (List.replicate 50 FDFD : Str).length < MAX_MESSAGE_LENGTH) :=
  claim_C2 c2Env (List.replicate 50 FDFD) rfl rfl (by decide)

/-- A fresh command context about to broadcast `msg` with `!` in a room:
not yet broadcasting, no broadcast message computed, the user has the room
"show" capability but not `bypassall`. -/
def freshBCtx (room : Option RoomBC) (msg : Str) : BCtx :=
  { broadcasting := false, cmdToken := [BROADCAST_TOKEN], message := msg,
    broadcastMessage := [], room := room, hasPmTarget := false,
    canShow := true, bypassall := false }

/-- C3: after a successful broadcast (with `ignoreCooldown = false`) of `msg`
in a room at time `t`, the room stores the normalized invocation text and
timestamp `t`; a second identical invocation by a user without `bypassall` is
rejected at any time `tp` within `BROADCAST_COOLDOWN = 20` seconds of `t`,
and succeeds once more than 20 seconds have elapsed. -/
theorem claim_C3 (canTalkO : Str → Option Str) (msg m0 : Str) (r0 : RoomBC)
    (t tp : Int) (hct : canTalkO msg = some m0)
    (hfresh : r0.lastBroadcast ≠ normalizeBroadcast msg) :
    (runBroadcast canTalkO t (freshBCtx (some r0) msg) false none).1 = true ∧
    (runBroadcast canTalkO t (freshBCtx (some r0) msg) false none).2.room =
      some ⟨normalizeBroadcast msg, t⟩ ∧
    (tp - t ≤ BROADCAST_COOLDOWN →
      (canBroadcast canTalkO tp
        (freshBCtx (some ⟨normalizeBroadcast msg, t⟩) msg) false none).1 =
        false ∧
      (runBroadcast canTalkO tp
        (freshBCtx (some ⟨normalizeBroadcast msg, t⟩) msg) false none).1 =
        false) ∧
    (BROADCAST_COOLDOWN < tp - t →
      (runBroadcast canTalkO tp
        (freshBCtx (some ⟨normalizeBroadcast msg, t⟩) msg) false none).1 =
        true) := by
  have hcan1 : canBroadcast canTalkO t (freshBCtx (some r0) msg) false none =
      (true, { freshBCtx (some r0) msg with
                 message := m0,
                 broadcastMessage := normalizeBroadcast msg }) := by
    unfold canBroadcast freshBCtx
    rw [if_neg (by simp)]
    rw [if_neg (by simp)]
    rw [if_neg (by simp)]
    rw [if_neg (by simp [hfresh])]
    simp [hct]
  refine ⟨?_, ?_, ?_, ?_⟩
  · unfold runBroadcast
    rw [if_neg (by simp [freshBCtx])]
    rw [show (freshBCtx (some r0) msg).broadcastMessage.isEmpty = true from
      rfl]
    rw [if_pos rfl]
    rw [hcan1]
    simp [freshBCtx]
  · unfold runBroadcast
    rw [if_neg (by simp [freshBCtx])]
    rw [show (freshBCtx (some r0) msg).broadcastMessage.isEmpty = true from
      rfl]
    rw [if_pos rfl]
    rw [hcan1]
    simp [freshBCtx]
  · intro hin
    have hcb : (canBroadcast canTalkO tp
        (freshBCtx (some ⟨normalizeBroadcast msg, t⟩) msg) false none).1 =
        false := by
      unfold canBroadcast freshBCtx
      rw [if_neg (by simp)]
      rw [if_neg (by simp)]
      rw [if_neg (by simp)]
      rw [if_pos (by
        simp only [Bool.not_false, Bool.true_and, Bool.and_true]
        simp only [Bool.and_eq_true, decide_eq_true_eq]
        exact ⟨rfl, by omega⟩)]
    refine ⟨hcb, ?_⟩
    unfold runBroadcast
    rw [if_neg (by simp [freshBCtx])]
    rw [show List.isEmpty
      (freshBCtx (some ⟨normalizeBroadcast msg, t⟩) msg).broadcastMessage =
      true from rfl]
    rw [if_pos rfl]
    rcases hc2 : canBroadcast canTalkO tp
        (freshBCtx (some ⟨normalizeBroadcast msg, t⟩) msg) false none with
      ⟨b, ctx2⟩
    rw [hc2] at hcb
    simp only [] at hcb
    subst hcb
    simp
  · intro hout
    have hcb : canBroadcast canTalkO tp
        (freshBCtx (some ⟨normalizeBroadcast msg, t⟩) msg) false none =
        (true, { freshBCtx (some ⟨normalizeBroadcast msg, t⟩) msg with
                   message := m0,
                   broadcastMessage := normalizeBroadcast msg }) := by
      unfold canBroadcast freshBCtx
      rw [if_neg (by simp)]
      rw [if_neg (by simp)]
      rw [if_neg (by simp)]
      rw [if_neg (by
        simp only [Bool.not_false, Bool.true_and, Bool.and_true]
        simp only [Bool.and_eq_true, decide_eq_true_eq]
        rintro ⟨-, habs⟩
        omega)]
      simp [hct]
    unfold runBroadcast
    rw [if_neg (by simp [freshBCtx])]
    rw [show List.isEmpty
      (freshBCtx (some ⟨normalizeBroadcast msg, t⟩) msg).broadcastMessage =
      true from rfl]
    rw [if_pos rfl]
    rw [hcb]
    simp [freshBCtx]

/-- Witness for C3: a concrete room, the message `!x`, first broadcast at
t = 0, second attempt at t = 20000 (inside the window). -/
theorem claim_C3_witness :
    (runBroadcast (fun s => some s) 0
      (freshBCtx (some ⟨[], -100000⟩) "!x".data) false none).1 = true ∧
    (runBroadcast (fun s => some s) 0
      (freshBCtx (some ⟨[], -100000⟩) "!x".data) false none).2.room =
      some ⟨normalizeBroadcast "!x".data, 0⟩ ∧
    ((20000 : Int) - 0 ≤ BROADCAST_COOLDOWN →
      (canBroadcast (fun s => some s) 20000
        (freshBCtx (some ⟨normalizeBroadcast "!x".data, 0⟩) "!x".data)
        false none).1 = false ∧
      (runBroadcast (fun s => some s) 20000
        (freshBCtx (some ⟨normalizeBroadcast "!x".data, 0⟩) "!x".data)
        false none).1 = false) ∧
    (BROADCAST_COOLDOWN < (20000 : Int) - 0 →
      (runBroadcast (fun s => some s) 20000
        (freshBCtx (some ⟨normalizeBroadcast "!x".data, 0⟩) "!x".data)
        false none).1 = true) :=
  claim_C3 (fun s => some s) "!x".data "!x".data ⟨[], -100000⟩ 0 20000 rfl
    (by decide)

/-! ## Filter chain lemmas and claims C4 / C10 -/

theorem chainStep_append (xs ys : List (Str → FilterOut)) (m : Str) :
    chainStep (xs ++ ys) m =
      (match chainStep xs m with
       | .flowing m' => chainStep ys m'
       | .stopped r => .stopped r) := by
  induction xs generalizing m with
  | nil => rfl
  | cons f rest ih =>
    simp only [List.cons_append, chainStep]
    cases hfm : f m with
    | str s =>
      by_cases hs : s.isEmpty = true
      · simp only [if_pos hs]
      · simp only [if_neg hs]
        exact ih s
    | fals => rfl
    | nul => rfl
    | undef => exact ih m

theorem chatFilter_eq_chainStep (fs : List (Str → FilterOut)) (m : Str) :
    chatFilter fs m =
      (match chainStep fs m with
       | .stopped r => r
       | .flowing m' => some m') := by
  induction fs generalizing m with
  | nil => rfl
  | cons f rest ih =>
    simp only [chatFilter, chainStep]
    cases hfm : f m with
    | str s =>
      by_cases hs : s.isEmpty = true
      · simp only [if_pos hs]
      · simp only [if_neg hs]
        exact ih s
    | fals => rfl
    | nul => rfl
    | undef => exact ih m

theorem chatFilterTrace_append_flowing (fs1 rest : List (Str → FilterOut))
    (m m' : Str) (h : chainStep fs1 m = .flowing m') :
    (chatFilterTrace (fs1 ++ rest) m).2 =
      (chatFilterTrace fs1 m).2 ++ (chatFilterTrace rest m').2 := by
  induction fs1 generalizing m with
  | nil =>
    simp only [chainStep] at h
    cases h
    simp [chatFilterTrace]
  | cons f fs ih =>
    simp only [chainStep] at h
    simp only [List.cons_append, chatFilterTrace]
    cases hf : f m with
    | str s =>
      simp only [hf] at h
      by_cases hs : s.isEmpty = true
      · rw [if_pos hs] at h
        exact absurd h (by simp)
      · rw [if_neg hs] at h
        simp only [if_neg hs]
        simp [ih s h]
    | fals => simp only [hf] at h; exact absurd h (by simp)
    | nul => simp only [hf] at h; exact absurd h (by simp)
    | undef =>
      simp only [hf] at h
      simp [ih m h]

/-- C10: if the chain reaches a filter with in-flight text `m'` and that
filter returns the empty string, `Chat.filter` short-circuits right there with
the falsy result `''`: later filters are not consulted (the trace ends at
that filter, and the result does not depend on them), and the result is falsy
so the message is never sent. -/
theorem claim_C10 (fs1 : List (Str → FilterOut)) (f : Str → FilterOut)
    (fs2 : List (Str → FilterOut)) (m m' : Str)
    (hflow : chainStep fs1 m = .flowing m') (hf : f m' = .str []) :
    chatFilter (fs1 ++ f :: fs2) m = some [] ∧
    (chatFilterTrace (fs1 ++ f :: fs2) m).2 =
      (chatFilterTrace fs1 m).2 ++ [m'] ∧
    jsTruthy (chatFilter (fs1 ++ f :: fs2) m) = false ∧
    (∀ fs2', chatFilter (fs1 ++ f :: fs2') m =
      chatFilter (fs1 ++ f :: fs2) m) := by
  have hres : ∀ fs2' : List (Str → FilterOut),
      chatFilter (fs1 ++ f :: fs2') m = some [] := by
    intro fs2'
    rw [chatFilter_eq_chainStep, chainStep_append, hflow]
    simp only [chainStep, hf]
    rfl
  refine ⟨hres fs2, ?_, ?_, ?_⟩
  · rw [chatFilterTrace_append_flowing fs1 (f :: fs2) m m' hflow]
    simp [chatFilterTrace, hf]
  · rw [hres fs2]
    rfl
  · intro fs2'
    rw [hres fs2', hres fs2]

/-- Witness for C10: one pass-through filter, then a filter returning the
empty string, then a suppressing filter that is never consulted. -/
theorem claim_C10_witness :
    chatFilter [fun _ => FilterOut.undef, fun _ => FilterOut.str [],
      fun _ => FilterOut.fals] "ab".data = some [] ∧
    (chatFilterTrace [fun _ => FilterOut.undef, fun _ => FilterOut.str [],
      fun _ => FilterOut.fals] "ab".data).2 =
      (chatFilterTrace [fun _ => FilterOut.undef] "ab".data).2 ++
        ["ab".data] ∧
    jsTruthy (chatFilter [fun _ => FilterOut.undef, fun _ => FilterOut.str [],
      fun _ => FilterOut.fals] "ab".data) = false ∧
    (∀ fs2', chatFilter ([fun _ => FilterOut.undef] ++
        (fun _ => FilterOut.str []) :: fs2') "ab".data =
      chatFilter ([fun _ => FilterOut.undef] ++
        (fun _ => FilterOut.str []) :: [fun _ => FilterOut.fals])
        "ab".data) :=
  claim_C10 [fun _ => FilterOut.undef] (fun _ => FilterOut.str [])
    [fun _ => FilterOut.fals] "ab".data "ab".data rfl rfl

/-- C4 counterexample: a first filter returning the empty string - which IS a
replacement string - does not cause the second filter to be invoked with the
replacement: the chain short-circuits and the second filter sees nothing, so
"if the first filter returns a replacement string, the second filter is
invoked with the replacement text" is false at this input. -/
theorem claim_C4_cex :
    (fun _ : Str => FilterOut.str []) "hello".data = .str [] ∧
    (chatFilterTrace [fun _ : Str => FilterOut.str [],
      fun _ : Str => FilterOut.str "x".data] "hello".data).2 =
      ["hello".data] ∧
    (chatFilterTrace [fun _ : Str => FilterOut.str [],
      fun _ : Str => FilterOut.str "x".data] "hello".data).2 ≠
      ["hello".data, []] := by
  refine ⟨rfl, rfl, ?_⟩
  decide

/-- C4 (amended): in a two-filter chain, a first filter returning `false`
suppresses the whole chain (result `null`) regardless of the second filter,
which is never consulted; a first filter returning a NON-EMPTY replacement
string causes the second filter to be invoked with the replacement, not the
original; a first filter returning the empty string short-circuits with the
falsy result `''` and the second filter is not consulted (see C10). -/
theorem claim_C4 (f1 f2 : Str → FilterOut) (m s : Str) :
    (f1 m = .fals →
      chatFilter [f1, f2] m = none ∧
      (chatFilterTrace [f1, f2] m).2 = [m]) ∧
    (f1 m = .str s → s ≠ [] →
      (chatFilterTrace [f1, f2] m).2 = [m, s] ∧
      chatFilter [f1, f2] m = chatFilter [f2] s) ∧
    (f1 m = .str [] →
      (chatFilterTrace [f1, f2] m).2 = [m] ∧
      chatFilter [f1, f2] m = some []) := by
  refine ⟨?_, ?_, ?_⟩
  · intro h
    simp [chatFilter, chatFilterTrace, h]
  · intro h hs
    have hse : s.isEmpty = false := isEmpty_false_of_ne_nil hs
    simp [chatFilter, chatFilterTrace, h, hse]
    cases hf2 : f2 s with
    | str s2 => by_cases hs2 : s2 = [] <;> simp [hs2]
    | fals => rfl
    | nul => rfl
    | undef => rfl
  · intro h
    simp [chatFilter, chatFilterTrace, h]

/-- Witness for C4 (amended), at a suppressing first filter and at a
non-empty replacement. -/
theorem claim_C4_witness :
    (((fun _ : Str => FilterOut.fals) "hi".data = .fals →
      chatFilter [fun _ : Str => FilterOut.fals,
        fun _ : Str => FilterOut.str "y".data] "hi".data = none ∧
      (chatFilterTrace [fun _ : Str => FilterOut.fals,
        fun _ : Str => FilterOut.str "y".data] "hi".data).2 = ["hi".data]) ∧
    ((fun _ : Str => FilterOut.fals) "hi".data = .str "z".data →
      "z".data ≠ ([] : Str) →
      (chatFilterTrace [fun _ : Str => FilterOut.fals,
        fun _ : Str => FilterOut.str "y".data] "hi".data).2 =
        ["hi".data, "z".data] ∧
      chatFilter [fun _ : Str => FilterOut.fals,
        fun _ : Str => FilterOut.str "y".data] "hi".data =
        chatFilter [fun _ : Str => FilterOut.str "y".data] "z".data) ∧
    ((fun _ : Str => FilterOut.fals) "hi".data = .str [] →
      (chatFilterTrace [fun _ : Str => FilterOut.fals,
        fun _ : Str => FilterOut.str "y".data] "hi".data).2 = ["hi".data] ∧
      chatFilter [fun _ : Str => FilterOut.fals,
        fun _ : Str => FilterOut.str "y".data] "hi".data = some [])) ∧
    chatFilter [fun _ : Str => FilterOut.fals,
      fun _ : Str => FilterOut.str "y".data] "hi".data = none :=
  ⟨claim_C4 (fun _ => FilterOut.fals) (fun _ => FilterOut.str "y".data)
    "hi".data "z".data,
   ((claim_C4 (fun _ => FilterOut.fals) (fun _ => FilterOut.str "y".data)
    "hi".data "z".data).1 rfl).1⟩

/-- The collaborator environment used for the C5 evaluation: no room, no PM
target, every handler broadcastable and returning nothing, and a validation
pipeline that passes messages through unchanged. -/
def c5Env : ParseEnv :=
  { userName := "u".data, roomid := none, pmTargetName := none,
    userInRoom := true, broadcastableOf := fun _ => true,
    handlerRun := fun _ _ => .retUndef, canTalkO := fun s => some s }

/-- C5 counterexample: `parseCommand` does resolve no command on `!!test`,
but the literal chat message that `parse` hands to `sendChatMessage` is the
unmodified `!!test`, not `!test` - nothing in `parse` strips the doubled
token (chat.ts lines 445-462). -/
theorem claim_C5_cex :
    (parseCommand ChatEntry.subNil [] "!!test".data).1 = none ∧
    (parseRun ChatEntry.subNil [] c5Env "!!test".data).delivered =
      some "!!test".data ∧
    (parseRun ChatEntry.subNil [] c5Env "!!test".data).delivered ≠
      some "!test".data := by
  refine ⟨rfl, rfl, ?_⟩
  decide

/-- On a doubled command token the resolver rejects up front: the second
character equals the first (escape-by-doubling), so `parseCommand` returns
`null` (chat.ts line 538). -/
theorem parseCmdCore_doubled (cmds : ChatEntry) (c : Char) (rest : Str)
    (hspace : isJsSpace c = false)
    (hrw : hardcodedRewrites (c :: c :: rest) = c :: c :: rest)
    (htok : c ∈ VALID_COMMAND_TOKENS) :
    parseCmdCore cmds (c :: c :: rest) false = none := by
  unfold parseCmdCore
  rw [if_neg (by
    rw [isEmpty_false_of_ne_nil (jsTrim_cons_ne_nil hspace)]
    exact Bool.noConfusion)]
  rw [hrw]
  simp only [show jsCharAt (c :: c :: rest) 0 = some c from rfl]
  rw [if_neg (fun hnot => hnot htok)]
  rw [if_pos (show jsCharAt (c :: c :: rest) 1 = some c from rfl)]

/-- C5 (amended): an input whose first character is a command token and whose
second character repeats it resolves no command (`parseCommand` returns
`null`), and the input `!!test` is then delivered as the literal chat message
`!!test`, unchanged. -/
theorem claim_C5 :
    (∀ (cmds : ChatEntry) (groups : List (Str × Str)) (c : Char) (rest : Str),
      c ∈ VALID_COMMAND_TOKENS →
      (parseCommand cmds groups (c :: c :: rest)).1 = none) ∧
    (parseRun ChatEntry.subNil [] c5Env "!!test".data).delivered =
      some "!!test".data := by
  refine ⟨?_, rfl⟩
  intro cmds groups c rest hc
  have hc' : c = '/' ∨ c = '!' := by
    simpa [VALID_COMMAND_TOKENS] using hc
  have hcore : parseCmdCore cmds (c :: c :: rest) false = none := by
    rcases hc' with rfl | rfl
    · refine parseCmdCore_doubled cmds '/' rest (by decide) ?_ (by decide)
      unfold hardcodedRewrites
      rw [if_neg (by simp [jsStartsWith, List.isPrefixOf]),
        if_neg (by simp [jsStartsWith, List.isPrefixOf]),
        if_neg (by
          rintro ⟨h1, -⟩
          simp [jsStartsWith, List.isPrefixOf, String.data] at h1),
        if_neg (by
          rintro ⟨h1, -⟩
          simp [jsStartsWith, List.isPrefixOf, String.data] at h1)]
    · refine parseCmdCore_doubled cmds '!' rest (by decide) ?_ (by decide)
      unfold hardcodedRewrites
      rw [if_neg (by simp [jsStartsWith, List.isPrefixOf]),
        if_neg (by simp [jsStartsWith, List.isPrefixOf]),
        if_neg (by
          rintro ⟨h1, -⟩
          simp [jsStartsWith, List.isPrefixOf, String.data] at h1),
        if_neg (by
          rintro ⟨h1, -⟩
          simp [jsStartsWith, List.isPrefixOf, String.data] at h1)]
  unfold parseCommand
  rw [hcore]

/-- Witness for C5 (amended) at the concrete doubled-token input `//x`. -/
theorem claim_C5_witness :
    (parseCommand ChatEntry.subNil [] ('/' :: '/' :: "x".data)).1 = none ∧
    (parseRun ChatEntry.subNil [] c5Env "!!test".data).delivered =
      some "!!test".data :=
  ⟨claim_C5.1 ChatEntry.subNil [] '/' "x".data (by decide), claim_C5.2⟩

/-- A registry with a handler under `speed` and the alias `spd` for it. -/
def aliasReg : ChatEntry :=
  .subCons "speed".data (.func 0)
    (.subCons "spd".data (.aliasTo "speed".data) .subNil)

/-- C6 counterexample: `spd` is registered as an alias of `speed`, and
resolving `/spd x` yields the same handler (and token and target) as
`/speed x`, but NOT an identical descriptor: the `cmd` and `fullCmd` fields
hold the verb as typed (`spd` vs `speed`), so "identical in every field
(cmd, cmdToken, target, fullCmd, handler)" is false at this input. -/
theorem claim_C6_cex :
    lookupEntry aliasReg "spd".data = some (.aliasTo "speed".data) ∧
    ((parseCommand aliasReg [] "/spd x".data).1.map (·.handler)) =
      ((parseCommand aliasReg [] "/speed x".data).1.map (·.handler)) ∧
    (parseCommand aliasReg [] "/spd x".data).1 ≠
      (parseCommand aliasReg [] "/speed x".data).1 := by
  refine ⟨rfl, rfl, ?_⟩
  decide

/-- C6 (amended): for a top-level verb `V` registered as the alias string
naming `W`, whose entry is a handler, `parseCommand` on `/V x` and on `/W x`
yields descriptors with the same `cmdToken`, `target` and `handler`; the
`cmd` and `fullCmd` fields are not shared - each holds the verb as typed
(`V` resp. `W`). -/
theorem claim_C6 (cmds : ChatEntry) (groups : List (Str × Str))
    (V W x : Str) (f : Nat)
    (hV : V.all isLowerAlpha = true) (hVne : V ≠ [])
    (hW : W.all isLowerAlpha = true) (hWne : W ≠ [])
    (hx : jsTrim x = x)
    (halias : lookupEntry cmds V = some (.aliasTo W))
    (hfunc : lookupEntry cmds W = some (.func f)) :
    (parseCommand cmds groups ('/' :: (V ++ ' ' :: x))).1 =
      some ⟨V, ['/'], x, V, some (.func f)⟩ ∧
    (parseCommand cmds groups ('/' :: (W ++ ' ' :: x))).1 =
      some ⟨W, ['/'], x, W, some (.func f)⟩ := by
  have hstepV : resolveStep false cmds V = .finish (some (.func f)) := by
    unfold resolveStep
    rw [halias]
    simp only [hfunc]
    rfl
  have hstepW : resolveStep false cmds W = .finish (some (.func f)) := by
    unfold resolveStep
    rw [hfunc]
    rfl
  constructor
  · have h1 := parseCmdCore_slash_space cmds false x hV hVne
    rw [hx] at h1
    have hdesc : descend (entrySize cmds + 1) false cmds V x V =
        .done cmds V x V (some (.func f)) := by
      rw [descend]
      simp only [hstepV]
    unfold parseCommand
    rw [h1, hdesc]
    simp only [finishDescriptor]
  · have h1 := parseCmdCore_slash_space cmds false x hW hWne
    rw [hx] at h1
    have hdesc : descend (entrySize cmds + 1) false cmds W x W =
        .done cmds W x W (some (.func f)) := by
      rw [descend]
      simp only [hstepW]
    unfold parseCommand
    rw [h1, hdesc]
    simp only [finishDescriptor]

/-- Witness for C6 (amended) on the concrete alias registry. -/
theorem claim_C6_witness :
    (parseCommand aliasReg [] ('/' :: ("spd".data ++ ' ' :: "x".data))).1 =
      some ⟨"spd".data, ['/'], "x".data, "spd".data, some (.func 0)⟩ ∧
    (parseCommand aliasReg [] ('/' :: ("speed".data ++ ' ' :: "x".data))).1 =
      some ⟨"speed".data, ['/'], "x".data, "speed".data, some (.func 0)⟩ :=
  claim_C6 aliasReg [] "spd".data "speed".data "x".data 0 (by decide)
    (by decide) (by decide) (by decide) (by decide) rfl rfl

/-- C7: a verb whose registry entry is an array of help strings is not
invoked: `parseCommand` re-resolves exactly once to the corresponding
`/help <verb minus its -help suffix>` invocation with the `recursing` flag set
(that is what `parseCmdRec` is), counting one re-resolution; a re-resolution
cannot redirect a second time (`descend` under `recursing = true` never
returns a redirect), every top-level resolution re-enters at most once, and
the descent loop always terminates within the fuel `parseCommand` supplies
(`fuelOut` is unreachable), so resolution terminates rather than looping. -/
theorem claim_C7 (cmds : ChatEntry) (groups : List (Str × Str)) (V : Str)
    (lines : List Str)
    (hV : V.all isLowerAlpha = true) (hVne : V ≠ [])
    (hhelp : lookupEntry cmds V = some (.helpLines lines)) :
    parseCommand cmds groups ('/' :: V) =
      (parseCmdRec cmds ('/' :: ("help ".data ++ sliceDropLast4 V)), 1) ∧
    (∀ (fuel : Nat) (cur : ChatEntry) (cmd target fullCmd fc : Str),
      descend fuel true cur cmd target fullCmd ≠ .helpRedirect fc) ∧
    (∀ (r : Bool) (cur : ChatEntry) (cmd target fullCmd : Str),
      descend (entrySize cur + 1) r cur cmd target fullCmd ≠ .fuelOut) ∧
    (∀ msg : Str, (parseCommand cmds groups msg).2 ≤ 1) := by
  refine ⟨?_, ?_, ?_, ?_⟩
  · have h1 := parseCmdCore_slash_nospace cmds false hV hVne
    have hstep : resolveStep false cmds V = .redirect := by
      unfold resolveStep
      rw [hhelp]
      rfl
    have hdesc : descend (entrySize cmds + 1) false cmds V [] V =
        .helpRedirect V := by
      rw [descend]
      simp only [hstep]
    unfold parseCommand
    rw [h1, hdesc]
  · intro fuel cur cmd target fullCmd fc
    exact descend_true_no_redirect fuel cur cmd target fullCmd fc
  · intro r cur cmd target fullCmd
    exact descend_no_fuelOut (entrySize cur + 1) r cur cmd target fullCmd
      (by omega)
  · intro msg
    unfold parseCommand
    rcases hpc : parseCmdCore cmds msg false with - | ⟨ct, out⟩
    · simp
    · cases out with
      | helpRedirect fc => simp
      | fuelOut => simp
      | done cur cmd target fullCmd ch =>
        simp only []
        cases (finishDescriptor ct cur cmd target fullCmd ch).handler with
        | some e => simp
        | none =>
          simp only []
          cases groupRewrite groups fullCmd target with
          | some rewritten => simp
          | none => simp

/-- A registry with an array-valued help entry `foohelp` and a `help`
handler. -/
def helpReg : ChatEntry :=
  .subCons "foohelp".data (.helpLines ["/foo does things".data])
    (.subCons "help".data (.func 9) .subNil)

/-- Witness for C7 on the concrete registry: `/foohelp` redirects exactly
once to the recursing resolution of `/help foo`. -/
theorem claim_C7_witness :
    parseCommand helpReg [] ('/' :: "foohelp".data) =
      (parseCmdRec helpReg
        ('/' :: ("help ".data ++ sliceDropLast4 "foohelp".data)), 1) ∧
    (∀ (fuel : Nat) (cur : ChatEntry) (cmd target fullCmd fc : Str),
      descend fuel true cur cmd target fullCmd ≠ .helpRedirect fc) ∧
    (∀ (r : Bool) (cur : ChatEntry) (cmd target fullCmd : Str),
      descend (entrySize cur + 1) r cur cmd target fullCmd ≠ .fuelOut) ∧
    (∀ msg : Str, (parseCommand helpReg [] msg).2 ≤ 1) :=
  claim_C7 helpReg [] "foohelp".data ["/foo does things".data] (by decide)
    (by decide) (by decide)

/-- C8: when the resolved handler throws during dispatch, `parse` behaves per
the error taxonomy: an error whose name ends in `ErrorMessage` is shown to
the user verbatim as the only error reply, execution stops cleanly (result
`false`, nothing delivered) and the crash reporter is not called; any other
thrown error is forwarded to `Monitor.crashlog` with the
user/room/pmTarget/message context and the user gets the generic crash
notice, with no error reply and no exception escaping `parse`. -/
theorem claim_C8 (cmds : ChatEntry) (groups : List (Str × Str))
    (env : ParseEnv) (message0 : Str) (d : ParsedCmd) (f : Nat)
    (name em : Str)
    (hparse : (parseCommand cmds groups message0).1 = some d)
    (hhandler : d.handler = some (.func f))
    (hroom : env.roomid.isSome = true → env.userInRoom = true)
    (hbc : env.broadcastableOf f = true ∨ d.cmdToken ≠ [BROADCAST_TOKEN])
    (hrun : env.handlerRun f d.target = .throwE name em) :
    if jsEndsWith name "ErrorMessage".data = true then
      parseRun cmds groups env message0 =
        { errorReplies := [em], crashlog := none,
          genericCrashNotice := false, popup := none, delivered := none,
          result := .bool false }
    else
      (parseRun cmds groups env message0).crashlog =
        some ⟨"A chat command".data, env.userName, env.roomid,
          env.pmTargetName, message0⟩ ∧
      (parseRun cmds groups env message0).genericCrashNotice = true ∧
      (parseRun cmds groups env message0).errorReplies = [] := by
  have hmain : parseRun cmds groups env message0 =
      (if jsEndsWith name "ErrorMessage".data = true then
        { errorReplies := [em], crashlog := none,
          genericCrashNotice := false, popup := none, delivered := none,
          result := .bool false }
      else
        { errorReplies := [], crashlog := some ⟨"A chat command".data,
            env.userName, env.roomid, env.pmTargetName, message0⟩,
          genericCrashNotice := true, popup := none,
          delivered := (if message0.isEmpty then none else some message0),
          result := .str message0 }) := by
    unfold parseRun
    rw [if_neg (by rintro ⟨hs, hu, -⟩; exact hu (hroom hs))]
    simp only [hparse, Option.map_some', Option.getD_some, hhandler]
    rw [if_neg (by
      rintro ⟨hb, ht⟩
      rcases hbc with hbc | hbc
      · exact hb hbc
      · exact hbc ht)]
    simp only [hrun]
    by_cases hend : jsEndsWith name "ErrorMessage".data = true
    · rw [if_pos hend, if_pos hend]
      simp
    · rw [if_neg hend, if_neg hend]
  by_cases hend : jsEndsWith name "ErrorMessage".data = true
  · rw [if_pos hend]
    rw [hmain, if_pos hend]
  · rw [if_neg hend]
    rw [hmain, if_neg hend]
    exact ⟨rfl, rfl, rfl⟩

/-- A registry with exactly one handler, `crash`. -/
def crashReg : ChatEntry := .subCons "crash".data (.func 3) .subNil

/-- A collaborator environment whose handler 3 throws a `TypeError`. -/
def c8Env : ParseEnv :=
  { userName := "u".data, roomid := none, pmTargetName := none,
    userInRoom := true, broadcastableOf := fun _ => true,
    handlerRun := fun _ _ => .throwE "TypeError".data "boom".data,
    canTalkO := fun s => some s }

/-- Witness for C8 at a concrete thrown `TypeError` (not user-facing). -/
theorem claim_C8_witness :
    if jsEndsWith "TypeError".data "ErrorMessage".data = true then
      parseRun crashReg [] c8Env "/crash".data =
        { errorReplies := ["boom".data], crashlog := none,
          genericCrashNotice := false, popup := none, delivered := none,
          result := .bool false }
    else
      (parseRun crashReg [] c8Env "/crash".data).crashlog =
        some ⟨"A chat command".data, c8Env.userName, c8Env.roomid,
          c8Env.pmTargetName, "/crash".data⟩ ∧
      (parseRun crashReg [] c8Env "/crash".data).genericCrashNotice = true ∧
      (parseRun crashReg [] c8Env "/crash".data).errorReplies = [] :=
  claim_C8 crashReg [] c8Env "/crash".data
    ⟨"crash".data, ['/'], [], "crash".data, some (.func 3)⟩ 3
    "TypeError".data "boom".data rfl rfl (fun _ => rfl) (Or.inl rfl) rfl

/-- The "letters-only content" of a message, as the claim words it: the
message's identifier normalization restricted to letters. -/
def lettersOnly (message : Str) : Str := (toID message).filter isLowerAlpha

/-- A high-traffic room environment: the room `ot` has `highTraffic` set, the
user lacks the room `show` capability, and every other check passes. -/
def c9Env : TalkEnv :=
  { userStateOk := true, ignorelimits := false, bypassall := false,
    canMute := false, canShow := false, linksReject := fun _ => false,
    formatOk := fun _ => true, slowchatOk := true, nameBanwordOk := true,
    statusBanwordHit := false, messageBanwordOk := fun _ => true,
    gameFilter := none, room := some ("ot".data, true), lastMessage := [],
    lastMessageTime := 0, now := 1000000, filters := [] }

/-- C9: the claim says a message whose letters-only content is shorter than
2 characters is rejected in a high-traffic room for a non-privileged caller.
The code tests `toID(message).replace(/[^a-z]+/, '').length < 2`
(chat.ts line 1140), whose regex has no `g` flag: only the FIRST run of
non-letters is removed.  For the message `1a1` the letters-only content is
`a` (length 1 < 2, so the claim demands rejection and the code's own error
text says "your message must contain at least two letters"), but the code
computes `a1` (length 2) and lets the message through. -/
theorem claim_C9_code_eval :
    canTalk c9Env "1a1".data = .pass "1a1".data ∧
    (lettersOnly "1a1".data).length = 1 ∧
    (removeFirstNonLetterRun (toID "1a1".data)).length = 2 ∧
    c9Env.room = some ("ot".data, true) ∧ c9Env.canShow = false := by
  refine ⟨?_, by decide, by decide, rfl, rfl⟩
  decide
